import Mathlib

/-!
Verification of the Gomoku board implementation (`simple_board.py`).

The file shallowly embeds `SimpleGoBoard` into Lean: the numpy cell array
becomes a `List Marker`, python ints become `Int`/`Nat`, assertion failures
and out-of-range indexing become `Option` results.  The handful of names the
module imports from `board_util.py` (a file of the repository that is not in
`src/`) are modelled from the spec and marked as such in their doc comments.
-/

namespace Gomoku

/-- Cell markers stored in the board array: `EMPTY`, `BLACK`, `WHITE` for
playable cells, `BORDER` for the padding sentinel. -/
inductive Marker where
  | EMPTY
  | BLACK
  | WHITE
  | BORDER
deriving DecidableEq

open Marker

/-- Modelled from the spec: `GoBoardUtil.opponent` from the missing
`board_util.py` maps `BLACK` to `WHITE` and `WHITE` to `BLACK` (only ever
applied to black/white colors). -/
def opponent : Marker → Marker
  | BLACK => WHITE
  | WHITE => BLACK
  | m => m

/-- Modelled from the spec: `is_black_white(color)` from the missing
`board_util.py` tests membership in `{BLACK, WHITE}`. -/
def is_black_white (c : Marker) : Bool := c = BLACK || c = WHITE

/-- Modelled from the spec: `MAXSIZE` from the missing `board_util.py` is the
fixed maximum board dimension; the spec does not give its value, 25 is used
as the concrete bound (no claim depends on the value). -/
def MAXSIZE : Nat := 25

/-- Modelled from the spec: `coord_to_point(row, col, size)` from the missing
`board_util.py` maps a 1-based coordinate pair to the padded 1-D address
`row * (size + 1) + col` (spec section 4.1). -/
def coord_to_point (row col size : Nat) : Nat := row * (size + 1) + col

/-- The `SimpleGoBoard` state: `size`, the 1-D padded cell array `board`, and
the scalar fields.  The derived attributes `NS = size + 1`, `WE = 1` and
`maxpoint = size * size + 3 * (size + 1)` are functions of `size` and are kept
as definitions rather than duplicated fields. -/
structure Board where
  size : Nat
  ko_recapture : Option Nat
  current_player : Marker
  board : List Marker
  winner : Option Marker
deriving DecidableEq

/-- Total number of cells allocated by `reset`: `size * size + 3 * (size + 1)`. -/
def maxpoint (size : Nat) : Nat := size * size + 3 * (size + 1)

namespace Board

/-- Derived stride attribute `NS = size + 1`. -/
def NS (b : Board) : Nat := b.size + 1

/-- Address of column 1 of `row` (`row_start` in the source). -/
def row_start (size row : Nat) : Nat := row * (size + 1) + 1

/-- Python slice assignment `l[start : start + len] = m` (numpy broadcast of a
scalar over a slice), for in-range slices. -/
def setSlice (l : List Marker) (start len : Nat) (m : Marker) : List Marker :=
  l.take start ++ List.replicate len m ++ l.drop (start + len)

/-- The loop of `_initialize_empty_points`: for `row` in `1..size`, overwrite
the `size` cells starting at `row_start row` with `EMPTY`. -/
def _initialize_empty_points (size : Nat) (board : List Marker) : List Marker :=
  (List.range size).foldl
    (fun acc r => setSlice acc (row_start size (r + 1)) size EMPTY) board

/-- The `reset` method: an empty board of the given size — `board` is filled
with `BORDER` and then the interior rows are set to `EMPTY`. -/
def reset (size : Nat) : Board :=
  { size := size
    ko_recapture := none
    current_player := BLACK
    board := _initialize_empty_points size (List.replicate (maxpoint size) BORDER)
    winner := none }

/-- The constructor `SimpleGoBoard(size)`: asserts `2 ≤ size ≤ MAXSIZE`
(`none` on assertion failure) and resets. -/
def create (size : Nat) : Option Board :=
  if 2 ≤ size ∧ size ≤ MAXSIZE then some (reset size) else none

/-- The `copy` method: builds a fresh `SimpleGoBoard(self.size)` (whose
constructor asserts the size bound) and then overwrites `winner`,
`ko_recapture`, `current_player` and `board` with the originals. -/
def copy (b : Board) : Option Board :=
  (create b.size).map fun fresh =>
    { fresh with
      winner := b.winner
      ko_recapture := b.ko_recapture
      current_player := b.current_player
      board := b.board }

/-- Cell lookup `self.board[location]` for an `Int` location; every read in
the embedded code is guarded so that `0 < location < len(board)` or the point
is a known in-range address. -/
def cellAt (cells : List Marker) (i : Int) : Marker := cells.getD i.toNat BORDER

/-- One directional scanning loop of the win check in `play_move`:
`for i in range(fuel)`, and while `0 < location < len(board)`, bump `count`
and advance by `stride` on a matching color, stop on a mismatch. -/
def scanDir (cells : List Marker) (color : Marker) (stride : Int) :
    Nat → Int → Int → Int
  | 0, count, _ => count
  | n + 1, count, location =>
    if 0 < location ∧ location < (cells.length : Int) then
      if cellAt cells location = color then
        scanDir cells color stride n (count + 1) (location + stride)
      else count
    else
      scanDir cells color stride n count location

/-- The per-axis counter of the win check: counter initialised to `-1`, one
5-iteration pass with `+stride` from `point`, then one with `-stride`. -/
def axis_count (cells : List Marker) (color : Marker) (point stride : Int) : Int :=
  scanDir cells color (-stride) 5 (scanDir cells color stride 5 (-1) point) point

/-- A location the scanning loops of the win check advance over: inside the
guard range `0 < location < len(board)` and holding `color`. -/
def goodCell (cells : List Marker) (color : Marker) (i : Int) : Prop :=
  0 < i ∧ i < (cells.length : Int) ∧ cellAt cells i = color

instance (cells : List Marker) (color : Marker) (i : Int) :
    Decidable (goodCell cells color i) := by
  unfold goodCell
  exact inferInstance

/-- Number of matching steps a directional pass with `fuel` iterations makes
from `loc`: the length of the maximal prefix of `loc, loc + stride, …` (at
most `fuel` long) consisting of in-guard cells of `color`. -/
def ext (cells : List Marker) (color : Marker) (stride : Int) : Nat → Int → Nat
  | 0, _ => 0
  | n + 1, loc =>
    if goodCell cells color loc then ext cells color stride n (loc + stride) + 1
    else 0

/-- Specification-side notion of a winning alignment: `point` lies in a
window of five consecutive in-range cells of `color` along `stride` (offset
`j` backward, `4 - j` forward). -/
def fiveThrough (cells : List Marker) (color : Marker) (point stride : Int) : Prop :=
  ∃ j : Fin 5, ∀ i : Fin 5,
    goodCell cells color (point + ((i.val : Int) - (j.val : Int)) * stride)

instance (cells : List Marker) (color : Marker) (point stride : Int) :
    Decidable (fiveThrough cells color point stride) := by
  unfold fiveThrough
  exact inferInstance

/-- The `play_move` method.  `none` as the point is the reserved `PASS` value
(modelled from the spec; `PASS` lives in the missing `board_util.py`).  The
result is `none` exactly when the python code raises: the `is_black_white`
assertion fails or an out-of-range point is indexed. -/
def play_move (b : Board) (point : Option Nat) (color : Marker) :
    Option (Bool × Board) :=
  if is_black_white color then
    match point with
    | none => some (true, { b with current_player := opponent color })
    | some p =>
      if p < b.board.length then
        if b.board.getD p BORDER ≠ EMPTY then some (false, b)
        else
          let cells := b.board.set p color
          let w1 := if axis_count cells color p 1 ≥ 5 then some color else b.winner
          let w2 := if axis_count cells color p ((b.size : Int) + 1) ≥ 5 then some color else w1
          let w3 := if axis_count cells color p ((b.size : Int) + 2) ≥ 5 then some color else w2
          let w4 := if axis_count cells color p (b.size : Int) ≥ 5 then some color else w3
          let b' := { b with board := cells, winner := w4, current_player := opponent color }
          some (true, b')
      else none
  else none

/-- The `is_legal` method: play the move on a `copy()` of the board and
return the boolean that call produces. -/
def is_legal (b : Board) (point : Option Nat) (color : Marker) : Option Bool :=
  (b.copy).bind fun board_copy => (play_move board_copy point color).map Prod.fst

/-- The four orthogonal neighbor addresses of `point` (`_neighbors`). -/
def _neighbors (b : Board) (point : Int) : List Int :=
  [point - 1, point + 1, point - (b.NS : Int), point + (b.NS : Int)]

/-- The four diagonal neighbor addresses of `point` (`_diag_neighbors`). -/
def _diag_neighbors (b : Board) (point : Int) : List Int :=
  [point - (b.NS : Int) - 1,
   point - (b.NS : Int) + 1,
   point + (b.NS : Int) - 1,
   point + (b.NS : Int) + 1]

/-- The `_is_surrounded` helper: every orthogonal neighbor holds `BORDER` or
the given color. -/
def _is_surrounded (b : Board) (point : Int) (color : Marker) : Bool :=
  (b._neighbors point).all fun nb =>
    let nb_color := cellAt b.board nb
    nb_color = BORDER || nb_color = color

/-- The `is_eye` method: surrounded orthogonally, then the diagonal loop
accumulating `false_count` and `at_edge`, and the test
`false_count <= 1 - at_edge` (python ints; here `Nat` subtraction agrees
because `at_edge ∈ {0, 1}`). -/
def is_eye (b : Board) (point : Int) (color : Marker) : Bool :=
  if !(b._is_surrounded point color) then false
  else
    let opp_color := opponent color
    let fc_ae := (b._diag_neighbors point).foldl
      (fun (acc : Nat × Nat) d =>
        if cellAt b.board d = BORDER then (acc.1, 1)
        else if cellAt b.board d = opp_color then (acc.1 + 1, acc.2)
        else acc)
      (0, 0)
    decide (fc_ae.1 ≤ 1 - fc_ae.2)

/-- Sequential driver used to build concrete example positions: plays the
listed `(point, color)` moves with `play_move`, keeping the previous board on
a failed call. -/
def playSeq (b : Board) : List (Nat × Marker) → Board
  | [] => b
  | (p, c) :: rest =>
    match b.play_move (some p) c with
    | some (_, b2) => playSeq b2 rest
    | none => playSeq b rest

/-- A concrete 7×7 position: black has completed five in a row on row 1
(points 9–13, so `winner = BLACK`), and white holds points 25–28 of row 3,
one stone short of five. -/
def demo_board : Board :=
  playSeq (reset 7)
    [(9, BLACK), (10, BLACK), (11, BLACK), (12, BLACK), (13, BLACK),
     (25, WHITE), (26, WHITE), (27, WHITE), (28, WHITE)]

/-- A concrete 2×2 position with one black stone on point 4. -/
def board_after_black : Board := playSeq (reset 2) [(4, BLACK)]

/-- The same position with `current_player` forced back to `BLACK`; it
differs from `board_after_black` only in the `current_player` field. -/
def board_after_black_bturn : Board :=
  { board_after_black with current_player := BLACK }

end Board

namespace Board

/-- A `getD` read with default `BORDER` that yields `EMPTY` must be in range. -/
lemma lt_length_of_getD_empty {l : List Marker} {p : Nat}
    (hp : l.getD p BORDER = EMPTY) : p < l.length := by
  by_contra h
  rw [List.getD_eq_getElem?_getD, List.getElem?_eq_none (Nat.le_of_not_lt h)] at hp
  simp at hp

/-- Unfolding of `copy`: the python `copy` rebuilds a board of the same size
(asserting the size bound) and then overwrites every mutable field, so it
returns exactly the original board when the size bound holds and fails
otherwise. -/
lemma copy_eq_ite (b : Board) :
    b.copy = if 2 ≤ b.size ∧ b.size ≤ MAXSIZE then some b else none := by
  cases b with
  | mk s k cp bd w =>
    simp only [Board.copy, Board.create]
    split
    · simp [Board.reset]
    · rfl

/-- For a board satisfying the constructor contract, `copy` returns an equal
board. -/
lemma copy_eq {b : Board} (h2 : 2 ≤ b.size) (h3 : b.size ≤ MAXSIZE) :
    b.copy = some b := by
  rw [copy_eq_ite, if_pos ⟨h2, h3⟩]

/-- Shape of `play_move` on an empty playable point: the stone is written,
the four axis counters decide the new `winner`, and `current_player` flips. -/
lemma play_move_empty_eq (b : Board) (c : Marker) (p : Nat)
    (hc : is_black_white c = true) (hp : b.board.getD p BORDER = EMPTY) :
    b.play_move (some p) c = some (true, { b with board := b.board.set p c, winner := if axis_count (b.board.set p c) c (p : Int) (b.size : Int) ≥ 5 then some c else if axis_count (b.board.set p c) c (p : Int) ((b.size : Int) + 2) ≥ 5 then some c else if axis_count (b.board.set p c) c (p : Int) ((b.size : Int) + 1) ≥ 5 then some c else if axis_count (b.board.set p c) c (p : Int) 1 ≥ 5 then some c else b.winner, current_player := opponent c }) := by
  have hlen := lt_length_of_getD_empty hp
  have hp' : b.board[p] = EMPTY := by rwa [List.getD_eq_getElem _ _ hlen] at hp
  simp [Board.play_move, hc, hlen, hp']

end Board

open Board

/-- Claim C2: playing any black/white color on a valid non-`PASS` point whose
cell is not `EMPTY` returns `false` and returns the very same board — cells,
`current_player`, `winner` and `ko_recapture` are all unchanged. -/
theorem occupied_move_rejected_unchanged (b : Board) (c : Marker) (p : Nat)
    (hc : is_black_white c = true) (hlen : p < b.board.length)
    (hocc : b.board.getD p BORDER ≠ EMPTY) :
    b.play_move (some p) c = some (false, b) := by
  have hocc' : ¬b.board[p] = EMPTY := by
    rwa [List.getD_eq_getElem _ _ hlen] at hocc
  simp [Board.play_move, hc, hlen, hocc']

/-- Witness for C2 at a concrete input: the `BORDER` cell 0 of a fresh 2×2
board rejects a black stone and the board is returned unchanged. -/
theorem occupied_move_rejected_unchanged_witness :
    (Board.reset 2).play_move (some 0) BLACK = some (false, Board.reset 2) :=
  occupied_move_rejected_unchanged (Board.reset 2) BLACK 0 (by decide)
    (by decide) (by decide)

/-- Claim C3: a `PASS` move by a black/white color always succeeds, leaves
`board`, `winner` and `ko_recapture` untouched, and sets `current_player` to
the opponent. -/
theorem pass_move_flips_player (b : Board) (c : Marker)
    (hc : is_black_white c = true) :
    b.play_move none c = some (true, { b with current_player := opponent c }) := by
  simp [Board.play_move, hc]

/-- Witness for C3 at a concrete input: white passes on a fresh 2×2 board. -/
theorem pass_move_flips_player_witness :
    (Board.reset 2).play_move none WHITE
      = some (true, { Board.reset 2 with current_player := opponent WHITE }) :=
  pass_move_flips_player (Board.reset 2) WHITE (by decide)

/-- Claim C4: for a board satisfying the size contract, `copy` produces an
independent board equal to the original, and `is_legal` returns exactly the
boolean `play_move` produces on that copy (it never mutates the board it is
called on — it only ever plays on the copy). -/
theorem is_legal_is_play_move_on_copy (b : Board) (pt : Option Nat) (c : Marker)
    (h2 : 2 ≤ b.size) (h3 : b.size ≤ MAXSIZE) :
    b.copy = some b ∧ b.is_legal pt c = (b.play_move pt c).map Prod.fst := by
  have hcopy := copy_eq h2 h3
  exact ⟨hcopy, by simp [Board.is_legal, hcopy]⟩

/-- Witness for C4 at a concrete input: a fresh 2×2 board, point 4, black. -/
theorem is_legal_is_play_move_on_copy_witness :
    (Board.reset 2).copy = some (Board.reset 2)
      ∧ (Board.reset 2).is_legal (some 4) BLACK
          = ((Board.reset 2).play_move (some 4) BLACK).map Prod.fst :=
  is_legal_is_play_move_on_copy (Board.reset 2) (some 4) BLACK (by decide) (by decide)

/-- Claim C5: playing a black/white color on an `EMPTY` point always succeeds
and writes exactly that one stone: the new cells are `set p c` of the old, so
the played cell holds `c` and every other cell (in particular every opponent
stone) is untouched — no capture and no suicide rejection. -/
theorem empty_move_places_stone_unconditionally (b : Board) (c : Marker) (p : Nat)
    (hc : is_black_white c = true) (hp : b.board.getD p BORDER = EMPTY) :
    ∃ b', b.play_move (some p) c = some (true, b')
      ∧ b'.board = b.board.set p c
      ∧ b'.board.getD p BORDER = c
      ∧ (∀ q : Nat, q ≠ p → b'.board.getD q BORDER = b.board.getD q BORDER) := by
  have hlen := lt_length_of_getD_empty hp
  refine ⟨_, play_move_empty_eq b c p hc hp, rfl, ?_, ?_⟩
  · simp [List.getD_eq_getElem?_getD, List.getElem?_set_self, hlen]
  · intro q hq
    simp [List.getD_eq_getElem?_getD, List.getElem?_set_ne (Ne.symm hq)]

namespace Board

/-- Once the scanning location leaves the guard range, the pass no longer
changes the counter (the location is never advanced again). -/
lemma scanDir_stuck (cells : List Marker) (color : Marker) (stride : Int)
    (n : Nat) (count loc : Int)
    (h : ¬(0 < loc ∧ loc < (cells.length : Int))) :
    scanDir cells color stride n count loc = count := by
  induction n with
  | zero => rfl
  | succ n ih => simp only [scanDir, if_neg h]; exact ih

/-- Out of the guard range, the extent is zero. -/
lemma ext_stuck (cells : List Marker) (color : Marker) (stride : Int)
    (n : Nat) (loc : Int)
    (h : ¬(0 < loc ∧ loc < (cells.length : Int))) :
    ext cells color stride n loc = 0 := by
  cases n with
  | zero => rfl
  | succ n =>
    simp only [ext]
    rw [if_neg]
    intro hg
    exact h ⟨hg.1, hg.2.1⟩

/-- A directional pass adds exactly the directional extent to the counter. -/
lemma scanDir_eq_ext (cells : List Marker) (color : Marker) (stride : Int) :
    ∀ (n : Nat) (count loc : Int),
      scanDir cells color stride n count loc
        = count + (ext cells color stride n loc : Int) := by
  intro n
  induction n with
  | zero => intro count loc; simp [scanDir, ext]
  | succ n ih =>
    intro count loc
    by_cases hg : 0 < loc ∧ loc < (cells.length : Int)
    · by_cases hcol : cellAt cells loc = color
      · have hgood : goodCell cells color loc := ⟨hg.1, hg.2, hcol⟩
        simp only [scanDir, if_pos hg, if_pos hcol, ext, if_pos hgood, ih]
        push_cast
        ring
      · have hgood : ¬ goodCell cells color loc := fun h => hcol h.2.2
        simp only [scanDir, if_pos hg, if_neg hcol, ext, if_neg hgood]
        simp
    · have h0 : ext cells color stride (n + 1) loc = 0 := ext_stuck _ _ _ _ _ hg
      simp only [scanDir, if_neg hg, ih, ext_stuck _ _ _ _ _ hg, h0]

/-- The extent is bounded by the fuel. -/
lemma ext_le (cells : List Marker) (color : Marker) (stride : Int) :
    ∀ (n : Nat) (loc : Int), ext cells color stride n loc ≤ n := by
  intro n
  induction n with
  | zero => intro loc; simp [ext]
  | succ n ih =>
    intro loc
    simp only [ext]
    split
    · exact Nat.succ_le_succ (ih _)
    · exact Nat.zero_le _

/-- Every step below the extent lands on an in-guard cell of the color. -/
lemma ext_good (cells : List Marker) (color : Marker) (stride : Int) :
    ∀ (n : Nat) (loc : Int) (k : Nat),
      k < ext cells color stride n loc →
      goodCell cells color (loc + (k : Int) * stride) := by
  intro n
  induction n with
  | zero => intro loc k hk; simp [ext] at hk
  | succ n ih =>
    intro loc k hk
    simp only [ext] at hk
    by_cases hgood : goodCell cells color loc
    · rw [if_pos hgood] at hk
      cases k with
      | zero => simpa using hgood
      | succ k =>
        have hk' : k < ext cells color stride n (loc + stride) := by omega
        have harr : loc + ((k + 1 : Nat) : Int) * stride
            = loc + stride + (k : Int) * stride := by push_cast; ring
        rw [harr]
        exact ih (loc + stride) k hk'
    · rw [if_neg hgood] at hk
      omega

/-- If the first `m ≤ n` steps all land on in-guard cells of the color, the
extent is at least `m`. -/
lemma ext_ge (cells : List Marker) (color : Marker) (stride : Int) :
    ∀ (n : Nat) (loc : Int) (m : Nat),
      (∀ k : Nat, k < m → goodCell cells color (loc + (k : Int) * stride)) →
      m ≤ n → m ≤ ext cells color stride n loc := by
  intro n
  induction n with
  | zero => intro loc m _ hm; omega
  | succ n ih =>
    intro loc m hgood hm
    cases m with
    | zero => exact Nat.zero_le _
    | succ m =>
      have h0 : goodCell cells color loc := by
        simpa using hgood 0 (Nat.succ_pos m)
      simp only [ext, if_pos h0]
      have hrec : m ≤ ext cells color stride n (loc + stride) := by
        apply ih
        · intro k hk
          have hg := hgood (k + 1) (by omega)
          have harr : loc + ((k + 1 : Nat) : Int) * stride
              = loc + stride + (k : Int) * stride := by push_cast; ring
          rwa [harr] at hg
        · omega
      omega

/-- The per-axis counter equals `-1` plus the forward and backward extents
(the origin is counted once in each pass). -/
lemma axis_count_eq (cells : List Marker) (color : Marker) (point stride : Int) :
    axis_count cells color point stride
      = -1 + (ext cells color stride 5 point : Int)
          + (ext cells color (-stride) 5 point : Int) := by
  rw [axis_count, scanDir_eq_ext, scanDir_eq_ext]

/-- The axis counter reaches 5 exactly when the point lies in a window of
five consecutive in-guard cells of the color along the stride. -/
lemma axis_count_ge_five_iff (cells : List Marker) (color : Marker)
    (point stride : Int) :
    5 ≤ axis_count cells color point stride ↔
      fiveThrough cells color point stride := by
  rw [axis_count_eq]
  have ha := ext_le cells color stride 5 point
  have hb := ext_le cells color (-stride) 5 point
  constructor
  · intro h
    have hb1 : 1 ≤ ext cells color (-stride) 5 point := by omega
    refine ⟨⟨ext cells color (-stride) 5 point - 1, by omega⟩, ?_⟩
    intro i
    by_cases hcase : (ext cells color (-stride) 5 point - 1 : Nat) ≤ i.val
    · have hk : (i.val - (ext cells color (-stride) 5 point - 1))
          < ext cells color stride 5 point := by omega
      have hg := ext_good cells color stride 5 point _ hk
      have harr : point
          + ((i.val - (ext cells color (-stride) 5 point - 1) : Nat) : Int) * stride
          = point + ((i.val : Int)
              - ((ext cells color (-stride) 5 point - 1 : Nat) : Int)) * stride := by
        have : ((i.val - (ext cells color (-stride) 5 point - 1) : Nat) : Int)
            = (i.val : Int)
              - ((ext cells color (-stride) 5 point - 1 : Nat) : Int) := by omega
        rw [this]
      rwa [harr] at hg
    · have hk : ((ext cells color (-stride) 5 point - 1) - i.val)
          < ext cells color (-stride) 5 point := by omega
      have hg := ext_good cells color (-stride) 5 point _ hk
      have harr : point
          + (((ext cells color (-stride) 5 point - 1) - i.val : Nat) : Int) * (-stride)
          = point + ((i.val : Int)
              - ((ext cells color (-stride) 5 point - 1 : Nat) : Int)) * stride := by
        have : (((ext cells color (-stride) 5 point - 1) - i.val : Nat) : Int)
            = ((ext cells color (-stride) 5 point - 1 : Nat) : Int)
              - (i.val : Int) := by omega
        rw [this]
        ring
      rwa [harr] at hg
  · rintro ⟨j, hj⟩
    have hfwd : (5 - j.val) ≤ ext cells color stride 5 point := by
      apply ext_ge
      · intro k hk
        have hg := hj ⟨k + j.val, by omega⟩
        have harr : point + (((k + j.val : Nat) : Int) - (j.val : Int)) * stride
            = point + (k : Int) * stride := by push_cast; ring
        rwa [harr] at hg
      · omega
    have hbwd : (j.val + 1) ≤ ext cells color (-stride) 5 point := by
      apply ext_ge
      · intro k hk
        have hg := hj ⟨j.val - k, by omega⟩
        have harr : point + (((j.val - k : Nat) : Int) - (j.val : Int)) * stride
            = point + (k : Int) * (-stride) := by
          have : ((j.val - k : Nat) : Int) = (j.val : Int) - (k : Int) := by omega
          rw [this]
          ring
        rwa [harr] at hg
      · have := j.isLt
        omega
    omega

/-- Collapsing the sequential winner updates of the four axis checks into a
single conditional. -/
lemma ite_chain {α : Type} (A B C D : Prop)
    [Decidable A] [Decidable B] [Decidable C] [Decidable D] (c x : α) :
    (if D then c else if C then c else if B then c else if A then c else x)
      = if (A ∨ B ∨ C ∨ D) then c else x := by
  by_cases hA : A <;> by_cases hB : B <;> by_cases hC : C <;> by_cases hD : D <;>
    simp [hA, hB, hC, hD]

end Board

/-- Claim C1: playing a black/white color on an `EMPTY` point succeeds, and
the new `winner` is the color exactly when the placed stone lies in a run of
at least five consecutive same-colored stones along one of the four axes
(strides `1`, `size + 1`, `size + 2`, `size`) of the updated cells —
otherwise `winner` is unchanged.  In particular with no previous winner,
`winner = c` iff such a five-run exists (the `-1`-initialised double-pass
counter reaching 5 is exactly run length ≥ 5), and a run of only four leaves
`winner` as it was. -/
theorem play_move_winner_iff_five (b : Board) (c : Marker) (p : Nat)
    (hc : is_black_white c = true) (hp : b.board.getD p BORDER = EMPTY) :
    ∃ b', b.play_move (some p) c = some (true, b')
      ∧ b'.board = b.board.set p c
      ∧ b'.winner = (if (fiveThrough (b.board.set p c) c (p : Int) 1 ∨ fiveThrough (b.board.set p c) c (p : Int) ((b.size : Int) + 1) ∨ fiveThrough (b.board.set p c) c (p : Int) ((b.size : Int) + 2) ∨ fiveThrough (b.board.set p c) c (p : Int) (b.size : Int)) then some c else b.winner)
      ∧ (b.winner = none → (b'.winner = some c ↔ (fiveThrough (b.board.set p c) c (p : Int) 1 ∨ fiveThrough (b.board.set p c) c (p : Int) ((b.size : Int) + 1) ∨ fiveThrough (b.board.set p c) c (p : Int) ((b.size : Int) + 2) ∨ fiveThrough (b.board.set p c) c (p : Int) (b.size : Int))))
      ∧ (¬(fiveThrough (b.board.set p c) c (p : Int) 1 ∨ fiveThrough (b.board.set p c) c (p : Int) ((b.size : Int) + 1) ∨ fiveThrough (b.board.set p c) c (p : Int) ((b.size : Int) + 2) ∨ fiveThrough (b.board.set p c) c (p : Int) (b.size : Int)) → b'.winner = b.winner) := by
  have hiff : (axis_count (b.board.set p c) c (p : Int) 1 ≥ 5 ∨ axis_count (b.board.set p c) c (p : Int) ((b.size : Int) + 1) ≥ 5 ∨ axis_count (b.board.set p c) c (p : Int) ((b.size : Int) + 2) ≥ 5 ∨ axis_count (b.board.set p c) c (p : Int) (b.size : Int) ≥ 5) ↔ (fiveThrough (b.board.set p c) c (p : Int) 1 ∨ fiveThrough (b.board.set p c) c (p : Int) ((b.size : Int) + 1) ∨ fiveThrough (b.board.set p c) c (p : Int) ((b.size : Int) + 2) ∨ fiveThrough (b.board.set p c) c (p : Int) (b.size : Int)) :=
    or_congr (axis_count_ge_five_iff _ _ _ _)
      (or_congr (axis_count_ge_five_iff _ _ _ _)
        (or_congr (axis_count_ge_five_iff _ _ _ _) (axis_count_ge_five_iff _ _ _ _)))
  refine ⟨_, play_move_empty_eq b c p hc hp, rfl, ?_, ?_, ?_⟩
  · dsimp only
    rw [ite_chain]
    exact if_congr hiff rfl rfl
  · intro hw
    dsimp only
    rw [ite_chain, hw, if_congr hiff rfl rfl]
    constructor
    · intro h
      by_contra hF
      rw [if_neg hF] at h
      exact Option.noConfusion h
    · intro hF
      rw [if_pos hF]
  · intro hnot
    dsimp only
    rw [ite_chain, if_congr hiff rfl rfl, if_neg hnot]

/-- Witness for C1 at a concrete input: black plays point 4 of a fresh 2×2
board. -/
theorem play_move_winner_iff_five_witness :
    ∃ b', (Board.reset 2).play_move (some 4) BLACK = some (true, b') :=
  (play_move_winner_iff_five (Board.reset 2) BLACK 4 (by decide) (by decide)).elim
    (fun b' hb => ⟨b', hb.1⟩)

/-- Witness for C5 at a concrete input: black plays point 4 of a fresh 2×2
board. -/
theorem empty_move_places_stone_unconditionally_witness :
    ∃ b', (Board.reset 2).play_move (some 4) BLACK = some (true, b')
      ∧ b'.board = (Board.reset 2).board.set 4 BLACK
      ∧ b'.board.getD 4 BORDER = BLACK
      ∧ (∀ q : Nat, q ≠ 4 → b'.board.getD q BORDER = (Board.reset 2).board.getD q BORDER) :=
  empty_move_places_stone_unconditionally (Board.reset 2) BLACK 4 (by decide) (by decide)

namespace Board

/-- A failed `is_black_white` assertion makes `play_move` raise. -/
lemma play_move_not_bw (b : Board) (pt : Option Nat) (c : Marker)
    (hbw : ¬ is_black_white c = true) : b.play_move pt c = none := by
  simp [Board.play_move, hbw]

/-- An out-of-range non-`PASS` point makes `play_move` raise (numpy index
error) before any mutation. -/
lemma play_move_oob (b : Board) (p : Nat) (c : Marker)
    (hbw : is_black_white c = true) (hlen : ¬ p < b.board.length) :
    b.play_move (some p) c = none := by
  simp [Board.play_move, hbw, hlen]

/-- `play_move` never clears a set winner: if the resulting board has no
winner, the original had none. -/
lemma winner_none_of_play_winner_none {b : Board} {pt : Option Nat}
    {c : Marker} {r : Bool} {b' : Board}
    (h : b.play_move pt c = some (r, b')) (h0 : b'.winner = none) :
    b.winner = none := by
  by_cases hbw : is_black_white c = true
  · cases pt with
    | none =>
      rw [pass_move_flips_player b c hbw] at h
      simp only [Option.some.injEq, Prod.mk.injEq] at h
      obtain ⟨-, hb⟩ := h
      rw [← hb] at h0
      exact h0
    | some p =>
      by_cases hlen : p < b.board.length
      · by_cases hemp : b.board.getD p BORDER = EMPTY
        · rw [play_move_empty_eq b c p hbw hemp] at h
          simp only [Option.some.injEq, Prod.mk.injEq] at h
          obtain ⟨-, hb⟩ := h
          rw [← hb] at h0
          dsimp only at h0
          split at h0
          · exact Option.noConfusion h0
          · split at h0
            · exact Option.noConfusion h0
            · split at h0
              · exact Option.noConfusion h0
              · split at h0
                · exact Option.noConfusion h0
                · exact h0
        · rw [occupied_move_rejected_unchanged b c p hbw hlen hemp] at h
          simp only [Option.some.injEq, Prod.mk.injEq] at h
          obtain ⟨-, hb⟩ := h
          rw [← hb] at h0
          exact h0
      · rw [play_move_oob b p c hbw hlen] at h
        exact Option.noConfusion h
  · rw [play_move_not_bw b pt c hbw] at h
    exact Option.noConfusion h

end Board

/-- Claim C9: `play_move` never reads `winner`.  A board whose winner is
already set still accepts any move onto an empty point; a winner is never
reset to unset; and in the concrete position `demo_board` (black already won,
winner = BLACK) white's move completing five in a row overwrites the winner
with WHITE — winner is not write-once and the game does not stop. -/
theorem winner_ignored_overwritable_never_cleared :
    (∀ (b : Board) (c : Marker) (p : Nat) (w : Marker),
        is_black_white c = true → b.winner = some w →
        b.board.getD p BORDER = EMPTY →
        ∃ b', b.play_move (some p) c = some (true, b'))
    ∧ (∀ (b : Board) (pt : Option Nat) (c : Marker) (r : Bool) (b' : Board),
        b.play_move pt c = some (r, b') → b'.winner = none → b.winner = none)
    ∧ demo_board.winner = some BLACK
    ∧ demo_board.play_move (some 29) WHITE
        = some (true, playSeq demo_board [(29, WHITE)])
    ∧ (playSeq demo_board [(29, WHITE)]).winner = some WHITE := by
  refine ⟨?_, ?_, ?_, ?_, ?_⟩
  · intro b c p w hc _ hp
    exact ⟨_, play_move_empty_eq b c p hc hp⟩
  · intro b pt c r b' h h0
    exact winner_none_of_play_winner_none h h0
  · decide
  · decide
  · decide

/-- Witness for C9 at a concrete input: a 2×2 board with winner forced to
BLACK still accepts white's move on the empty point 4. -/
theorem winner_ignored_overwritable_never_cleared_witness :
    ∃ b', ({ Board.reset 2 with winner := some BLACK } : Board).play_move
        (some 4) WHITE = some (true, b') :=
  winner_ignored_overwritable_never_cleared.1
    { Board.reset 2 with winner := some BLACK } WHITE 4 BLACK
    (by decide) (by decide) (by decide)

/-- Claim C7: on a board of valid size whose cell array has the allocated
length `size² + 3·(size+1)`, all four orthogonal and all four diagonal
neighbor addresses of any playable point `pt(row, col)` are valid indices
into `cells`: non-negative and below the array length. -/
theorem neighbors_in_bounds (b : Board) (row col : Nat)
    (h2 : 2 ≤ b.size) (_hM : b.size ≤ MAXSIZE)
    (hlen : b.board.length = maxpoint b.size)
    (hr1 : 1 ≤ row) (hr2 : row ≤ b.size) (hc1 : 1 ≤ col) (hc2 : col ≤ b.size) :
    ∀ a ∈ b._neighbors ((coord_to_point row col b.size : Nat) : Int)
        ++ b._diag_neighbors ((coord_to_point row col b.size : Nat) : Int),
      0 ≤ a ∧ a.toNat < b.board.length := by
  intro a ha
  rw [hlen]
  simp only [Board._neighbors, Board._diag_neighbors, Board.NS,
    List.mem_append, List.mem_cons, List.not_mem_nil, or_false] at ha
  have hcp : (coord_to_point row col b.size : Nat) = row * (b.size + 1) + col := rfl
  have hmp : maxpoint b.size = b.size * b.size + 3 * (b.size + 1) := rfl
  have hexp : b.size * (b.size + 1) = b.size * b.size + b.size := by ring
  have h1 : row * (b.size + 1) + col ≤ b.size * b.size + 2 * b.size := by
    have hm := Nat.mul_le_mul hr2 (Nat.le_refl (b.size + 1))
    omega
  have hlow : b.size + 2 ≤ row * (b.size + 1) + col := by
    have hm := Nat.mul_le_mul hr1 (Nat.le_refl (b.size + 1))
    omega
  rcases ha with (h | h | h | h) | (h | h | h | h) <;> subst h <;>
    rw [hcp, hmp] <;> constructor <;> omega

/-- Witness for C7 at a concrete input: the left neighbor (address 3) of
point (1, 1) of a fresh 2×2 board is a valid index. -/
theorem neighbors_in_bounds_witness :
    0 ≤ (3 : Int) ∧ (3 : Int).toNat < (Board.reset 2).board.length :=
  neighbors_in_bounds (Board.reset 2) 1 1 (by decide) (by decide) (by decide)
    (by decide) (by decide) (by decide) (by decide) 3 (by decide)

namespace Board

/-- The diagonal loop of `is_eye` computes the number of opponent-colored
diagonals and whether any diagonal is `BORDER`. -/
lemma diag_fold_eq (b : Board) (opp : Marker) (hopp : opp ≠ BORDER) :
    ∀ (l : List Int) (fc ae : Nat),
      l.foldl (fun (acc : Nat × Nat) d =>
        if cellAt b.board d = BORDER then (acc.1, 1)
        else if cellAt b.board d = opp then (acc.1 + 1, acc.2)
        else acc) (fc, ae)
      = (fc + l.countP (fun d => decide (cellAt b.board d = opp)),
         if l.any (fun d => decide (cellAt b.board d = BORDER)) then 1 else ae) := by
  intro l
  induction l with
  | nil => intro fc ae; simp
  | cons d l ih =>
    intro fc ae
    by_cases hB : cellAt b.board d = BORDER
    · have hno : ¬ cellAt b.board d = opp := by
        rw [hB]; exact fun h => hopp h.symm
      simp [hB, hno, Ne.symm hopp, ih, List.countP_cons]
    · by_cases ho : cellAt b.board d = opp
      · simp [hB, ho, hopp, ih, List.countP_cons]
        omega
      · simp [hB, ho, ih, List.countP_cons]

/-- Unfolding of `_is_surrounded` as a statement about the four orthogonal
neighbors. -/
lemma _is_surrounded_iff (b : Board) (point : Int) (color : Marker) :
    b._is_surrounded point color = true ↔
      ∀ nb ∈ b._neighbors point,
        cellAt b.board nb = BORDER ∨ cellAt b.board nb = color := by
  simp [Board._is_surrounded, List.all_eq_true]

end Board

/-- Claim C8: `is_eye(point, color)` is true exactly when every orthogonal
neighbor is `BORDER` or `color`, and the number of diagonals holding the
opponent color is at most `1 - at_edge`, where `at_edge` is 1 iff some
diagonal is `BORDER` — zero tolerance at the edge or corner, one opponent
diagonal in the interior.  The statement reads only the eight neighbor cells
of the point (no group-liberty computation appears). -/
theorem is_eye_iff (b : Board) (point : Int) (c : Marker)
    (hc : is_black_white c = true) :
    b.is_eye point c = true ↔
      ((∀ nb ∈ b._neighbors point,
          cellAt b.board nb = BORDER ∨ cellAt b.board nb = c)
       ∧ (b._diag_neighbors point).countP
             (fun d => decide (cellAt b.board d = opponent c))
           ≤ 1 - (if ∃ d ∈ b._diag_neighbors point, cellAt b.board d = BORDER
                  then 1 else 0)) := by
  have hopp : opponent c ≠ BORDER := by
    cases c with
    | BLACK => decide
    | WHITE => decide
    | EMPTY => exact absurd hc (by decide)
    | BORDER => exact absurd hc (by decide)
  have hany : ((b._diag_neighbors point).any
      (fun d => decide (cellAt b.board d = BORDER)) = true)
      ↔ ∃ d ∈ b._diag_neighbors point, cellAt b.board d = BORDER := by
    simp [List.any_eq_true]
  unfold Board.is_eye
  by_cases hs : b._is_surrounded point c = true
  · have hs' := (Board._is_surrounded_iff b point c).mp hs
    simp only [hs, Bool.not_true, Bool.false_eq_true, if_false]
    rw [Board.diag_fold_eq b (opponent c) hopp]
    simp [hany, hs']
    exact fun _ => hs'
  · have hs' : ¬ ∀ nb ∈ b._neighbors point,
        cellAt b.board nb = BORDER ∨ cellAt b.board nb = c :=
      fun hall => hs ((Board._is_surrounded_iff b point c).mpr hall)
    simp [hs, hs']

/-- Witness for C8 at a concrete input: on a 2×2 board with black stones on
points 5 and 7, the corner point 4 is a black eye, via the right-to-left
direction of the characterization. -/
theorem is_eye_iff_witness :
    (playSeq (Board.reset 2) [(5, BLACK), (7, BLACK)]).is_eye 4 BLACK = true :=
  (is_eye_iff (playSeq (Board.reset 2) [(5, BLACK), (7, BLACK)]) 4 BLACK
    (by decide)).mpr (by decide)

/-- Counterexample for C10 as stated: two boards that differ only in
`current_player`, and a move onto an occupied point, for which `play_move`
returns the same boolean (`false`) but the resulting boards are NOT identical
— each keeps its own `current_player`, which is not `opponent c`. -/
theorem play_move_current_player_counterexample :
    board_after_black.size = board_after_black_bturn.size
    ∧ board_after_black.board = board_after_black_bturn.board
    ∧ board_after_black.winner = board_after_black_bturn.winner
    ∧ board_after_black.ko_recapture = board_after_black_bturn.ko_recapture
    ∧ board_after_black.current_player ≠ board_after_black_bturn.current_player
    ∧ board_after_black.play_move (some 4) WHITE
        = some (false, board_after_black)
    ∧ board_after_black_bturn.play_move (some 4) WHITE
        = some (false, board_after_black_bturn)
    ∧ ¬ ((board_after_black.play_move (some 4) WHITE).map Prod.snd
          = (board_after_black_bturn.play_move (some 4) WHITE).map Prod.snd) := by
  decide

/-- Claim C10 (amended): `play_move` and `is_legal` never read
`current_player`.  For two boards differing only in `current_player` they
return the same boolean and the same legality verdict; whenever the move is
ACCEPTED the two resulting boards are identical in every field, with
`current_player = opponent c` in both; a REJECTED move returns each board
unchanged (so the results still differ only in `current_player`). -/
theorem play_move_ignores_current_player (b1 b2 : Board)
    (hsize : b1.size = b2.size) (hboard : b1.board = b2.board)
    (hw : b1.winner = b2.winner) (hko : b1.ko_recapture = b2.ko_recapture)
    (pt : Option Nat) (c : Marker) :
    ((b1.play_move pt c).map Prod.fst = (b2.play_move pt c).map Prod.fst)
    ∧ (b1.is_legal pt c = b2.is_legal pt c)
    ∧ (∀ b1' b2', b1.play_move pt c = some (true, b1') →
        b2.play_move pt c = some (true, b2') →
        b1' = b2' ∧ b1'.current_player = opponent c)
    ∧ (∀ b1', b1.play_move pt c = some (false, b1') → b1' = b1)
    ∧ (∀ b2', b2.play_move pt c = some (false, b2') → b2' = b2) := by
  cases b1 with
  | mk s1 k1 cp1 bd1 w1 =>
    cases b2 with
    | mk s2 k2 cp2 bd2 w2 =>
      dsimp only at hsize hboard hw hko
      subst hsize
      subst hboard
      subst hw
      subst hko
      have key : ((Board.mk s1 k1 cp1 bd1 w1).play_move pt c = none
            ∧ (Board.mk s1 k1 cp2 bd1 w1).play_move pt c = none)
          ∨ ((Board.mk s1 k1 cp1 bd1 w1).play_move pt c
                = some (false, Board.mk s1 k1 cp1 bd1 w1)
            ∧ (Board.mk s1 k1 cp2 bd1 w1).play_move pt c
                = some (false, Board.mk s1 k1 cp2 bd1 w1))
          ∨ (∃ R : Board, R.current_player = opponent c
            ∧ (Board.mk s1 k1 cp1 bd1 w1).play_move pt c = some (true, R)
            ∧ (Board.mk s1 k1 cp2 bd1 w1).play_move pt c = some (true, R)) := by
        by_cases hbw : is_black_white c = true
        · cases pt with
          | none =>
            refine Or.inr (Or.inr ⟨Board.mk s1 k1 (opponent c) bd1 w1, rfl, ?_, ?_⟩)
            · exact pass_move_flips_player _ c hbw
            · exact pass_move_flips_player _ c hbw
          | some p =>
            by_cases hlen : p < bd1.length
            · by_cases hemp : bd1.getD p BORDER = EMPTY
              · refine Or.inr (Or.inr ⟨_, rfl, play_move_empty_eq _ c p hbw hemp, ?_⟩)
                exact play_move_empty_eq _ c p hbw hemp
              · exact Or.inr (Or.inl
                  ⟨occupied_move_rejected_unchanged _ c p hbw hlen hemp,
                   occupied_move_rejected_unchanged _ c p hbw hlen hemp⟩)
            · exact Or.inl ⟨play_move_oob _ p c hbw hlen, play_move_oob _ p c hbw hlen⟩
        · exact Or.inl ⟨play_move_not_bw _ pt c hbw, play_move_not_bw _ pt c hbw⟩
      have hfst : ((Board.mk s1 k1 cp1 bd1 w1).play_move pt c).map Prod.fst
          = ((Board.mk s1 k1 cp2 bd1 w1).play_move pt c).map Prod.fst := by
        rcases key with ⟨h1, h2⟩ | ⟨h1, h2⟩ | ⟨R, -, h1, h2⟩ <;> simp [h1, h2]
      refine ⟨hfst, ?_, ?_, ?_, ?_⟩
      · simp only [Board.is_legal, copy_eq_ite]
        dsimp only
        split
        · simpa using hfst
        · rfl
      · intro b1' b2' e1 e2
        rcases key with ⟨h1, h2⟩ | ⟨h1, h2⟩ | ⟨R, hcp, h1, h2⟩
        · rw [h1] at e1
          exact Option.noConfusion e1
        · rw [h1] at e1
          simp at e1
        · rw [h1] at e1
          rw [h2] at e2
          simp only [Option.some.injEq, Prod.mk.injEq, true_and] at e1 e2
          subst e1
          subst e2
          exact ⟨rfl, hcp⟩
      · intro b1' e1
        rcases key with ⟨h1, h2⟩ | ⟨h1, h2⟩ | ⟨R, hcp, h1, h2⟩
        · rw [h1] at e1
          exact Option.noConfusion e1
        · rw [h1] at e1
          simp only [Option.some.injEq, Prod.mk.injEq, true_and] at e1
          exact e1.symm
        · rw [h1] at e1
          simp at e1
      · intro b2' e2
        rcases key with ⟨h1, h2⟩ | ⟨h1, h2⟩ | ⟨R, hcp, h1, h2⟩
        · rw [h2] at e2
          exact Option.noConfusion e2
        · rw [h2] at e2
          simp only [Option.some.injEq, Prod.mk.injEq, true_and] at e2
          exact e2.symm
        · rw [h2] at e2
          simp at e2

/-- Witness for the amended C10 at a concrete input: a fresh 2×2 board and
the same board with `current_player` forced to WHITE, black playing point 4. -/
theorem play_move_ignores_current_player_witness :
    (((Board.reset 2).play_move (some 4) BLACK).map Prod.fst
        = (({ Board.reset 2 with current_player := WHITE } : Board).play_move
            (some 4) BLACK).map Prod.fst)
    ∧ ((Board.reset 2).is_legal (some 4) BLACK
        = ({ Board.reset 2 with current_player := WHITE } : Board).is_legal
            (some 4) BLACK) := by
  have h := play_move_ignores_current_player (Board.reset 2)
    { Board.reset 2 with current_player := WHITE } rfl rfl rfl rfl (some 4) BLACK
  exact ⟨h.1, h.2.1⟩

namespace Board

/-- Lookup in a `replicate` list with a default. -/
lemma replicate_getD (a d : Marker) (n i : Nat) :
    (List.replicate n a).getD i d = if i < n then a else d := by
  by_cases h : i < n
  · rw [List.getD_eq_getElem _ _ (by simpa using h), List.getElem_replicate, if_pos h]
  · rw [List.getD_eq_getElem?_getD, List.getElem?_eq_none (by simpa using h),
      Option.getD_none, if_neg h]

/-- Length of `k` flattened copies of a block. -/
lemma flatten_replicate_length (k : Nat) (blk : List Marker) :
    ((List.replicate k blk).flatten).length = k * blk.length := by
  simp [List.length_flatten, List.map_replicate, List.sum_replicate, smul_eq_mul]

/-- Occurrence count in `k` flattened copies of a block. -/
lemma count_flatten_replicate (m : Marker) (k : Nat) (blk : List Marker) :
    ((List.replicate k blk).flatten).count m = k * blk.count m := by
  simp [List.count_flatten, List.map_replicate, List.sum_replicate, smul_eq_mul]

/-- Lookup inside the flattened row blocks: position `j` is `EMPTY` exactly
when its offset within its `size + 1`-cell block is below `size`. -/
lemma flatten_replicate_getD (size : Nat) :
    ∀ (k j : Nat), j < k * (size + 1) →
      ((List.replicate k (List.replicate size EMPTY ++ [BORDER])).flatten).getD j BORDER
        = if j % (size + 1) < size then EMPTY else BORDER := by
  intro k
  induction k with
  | zero => intro j hj; simp at hj
  | succ k ih =>
    intro j hj
    rw [List.replicate_succ, List.flatten_cons]
    by_cases hlt : j < size + 1
    · rw [List.getD_append _ _ _ _ (by simp; omega), Nat.mod_eq_of_lt hlt]
      by_cases hsz : j < size
      · rw [List.getD_append _ _ _ _ (by simpa using hsz), replicate_getD,
          if_pos hsz]
      · rw [List.getD_append_right _ _ _ _ (by simp; omega)]
        have h0 : j - (List.replicate size EMPTY).length = 0 := by simp; omega
        rw [h0, if_neg hsz]
        rfl
    · rw [List.getD_append_right _ _ _ _ (by simp; omega)]
      have hj2 : j - (List.replicate size EMPTY ++ [BORDER]).length
          = j - (size + 1) := by simp
      have hj' : j - (size + 1) < k * (size + 1) := by
        rw [Nat.succ_mul] at hj
        omega
      rw [hj2, ih _ hj', ← Nat.mod_eq_sub_mod (by omega)]

/-- Closed form of the `_initialize_empty_points` loop after the first `k`
rows: a `BORDER` prefix of `size + 2` cells, `k` row blocks of `size` `EMPTY`
cells followed by one `BORDER`, and the untouched `BORDER` tail. -/
lemma initialize_closed (size : Nat) :
    ∀ k, k ≤ size →
      (List.range k).foldl
          (fun acc r => setSlice acc (row_start size (r + 1)) size EMPTY)
          (List.replicate (maxpoint size) BORDER)
      = List.replicate (size + 2) BORDER
        ++ (List.replicate k (List.replicate size EMPTY ++ [BORDER])).flatten
        ++ List.replicate ((size + 1) * (size + 1 - k)) BORDER := by
  intro k
  induction k with
  | zero =>
    intro _
    rw [List.range_zero, List.foldl_nil, List.replicate_zero, List.flatten_nil,
      List.append_nil, ← List.replicate_add]
    congr 1
    show maxpoint size = size + 2 + (size + 1) * (size + 1 - 0)
    rw [Nat.sub_zero]
    show size * size + 3 * (size + 1) = _
    ring
  | succ k ih =>
    intro hk
    rw [List.range_succ, List.foldl_append, List.foldl_cons, List.foldl_nil,
      ih (by omega), setSlice]
    have hblk : (List.replicate size EMPTY ++ [BORDER] : List Marker).length
        = size + 1 := by simp
    have hPM : (List.replicate (size + 2) BORDER
        ++ (List.replicate k (List.replicate size EMPTY ++ [BORDER])).flatten).length
        = row_start size (k + 1) := by
      rw [List.length_append, List.length_replicate, flatten_replicate_length,
        hblk, row_start]
      ring
    have hsplit : (size + 1) * (size + 1 - k)
        = size + ((size + 1) * (size - k) + 1) := by
      have h1 : size + 1 - k = (size - k) + 1 := by omega
      rw [h1, Nat.mul_add, Nat.mul_one]
      omega
    have htake : List.take (row_start size (k + 1))
        (List.replicate (size + 2) BORDER
          ++ (List.replicate k (List.replicate size EMPTY ++ [BORDER])).flatten
          ++ List.replicate ((size + 1) * (size + 1 - k)) BORDER)
        = List.replicate (size + 2) BORDER
          ++ (List.replicate k (List.replicate size EMPTY ++ [BORDER])).flatten :=
      List.take_left' hPM
    have hdrop : List.drop (row_start size (k + 1) + size)
        (List.replicate (size + 2) BORDER
          ++ (List.replicate k (List.replicate size EMPTY ++ [BORDER])).flatten
          ++ List.replicate ((size + 1) * (size + 1 - k)) BORDER)
        = List.replicate ((size + 1) * (size - k) + 1) BORDER := by
      rw [← hPM, List.drop_append, hsplit, List.replicate_add]
      exact List.drop_left' (List.length_replicate _ _)
    rw [htake, hdrop]
    have hsk : size + 1 - (k + 1) = size - k := by omega
    rw [hsk, List.replicate_succ' k, List.flatten_append, List.flatten_cons,
      List.flatten_nil, List.append_nil]
    have hrep : List.replicate ((size + 1) * (size - k) + 1) BORDER
        = BORDER :: List.replicate ((size + 1) * (size - k)) BORDER :=
      List.replicate_succ BORDER _
    rw [hrep]
    simp [List.append_assoc]

/-- The cell array of a freshly reset board, in closed form. -/
lemma reset_board_closed (size : Nat) :
    (reset size).board
      = List.replicate (size + 2) BORDER
        ++ (List.replicate size (List.replicate size EMPTY ++ [BORDER])).flatten
        ++ List.replicate (size + 1) BORDER := by
  show _initialize_empty_points size (List.replicate (maxpoint size) BORDER) = _
  rw [_initialize_empty_points, initialize_closed size size (Nat.le_refl _)]
  have h1 : size + 1 - size = 1 := by omega
  rw [h1, Nat.mul_one]

end Board

/-- Claim C6: a freshly created board of valid size has cells of total length
`size² + 3·(size+1)`, exactly `size²` `EMPTY` cells — the playable cells
`pt(row, col)` for `1 ≤ row, col ≤ size` — no `BLACK` or `WHITE` cell, every
non-playable cell `BORDER`, `current_player = BLACK`, no winner, no ko
point; and construction fails exactly when the size is outside
`[2, MAXSIZE]`. -/
theorem fresh_board_characterization :
    (∀ size : Nat, 2 ≤ size → size ≤ MAXSIZE →
      Board.create size = some (Board.reset size)
      ∧ (Board.reset size).board.length = maxpoint size
      ∧ (Board.reset size).board.count EMPTY = size * size
      ∧ (Board.reset size).board.count BLACK = 0
      ∧ (Board.reset size).board.count WHITE = 0
      ∧ (∀ row col : Nat, 1 ≤ row → row ≤ size → 1 ≤ col → col ≤ size →
          (Board.reset size).board.getD (coord_to_point row col size) BORDER
            = EMPTY)
      ∧ (∀ i : Nat, i < maxpoint size →
          (¬ ∃ row col : Nat, 1 ≤ row ∧ row ≤ size ∧ 1 ≤ col ∧ col ≤ size
              ∧ i = coord_to_point row col size) →
          (Board.reset size).board.getD i BORDER = BORDER)
      ∧ (Board.reset size).current_player = BLACK
      ∧ (Board.reset size).winner = none
      ∧ (Board.reset size).ko_recapture = none)
    ∧ (∀ size : Nat, ¬ (2 ≤ size ∧ size ≤ MAXSIZE) → Board.create size = none) := by
  constructor
  · intro size h2 h3
    have hblk : (List.replicate size EMPTY ++ [BORDER] : List Marker).length
        = size + 1 := by simp
    refine ⟨?_, ?_, ?_, ?_, ?_, ?_, ?_, rfl, rfl, rfl⟩
    · rw [Board.create, if_pos ⟨h2, h3⟩]
    · rw [Board.reset_board_closed, List.length_append, List.length_append,
        Board.flatten_replicate_length, hblk, List.length_replicate,
        List.length_replicate]
      have : maxpoint size = size * size + 3 * (size + 1) := rfl
      rw [this]
      ring
    · rw [Board.reset_board_closed, List.count_append, List.count_append,
        Board.count_flatten_replicate]
      simp [List.count_replicate, List.count_append]
    · rw [Board.reset_board_closed, List.count_append, List.count_append,
        Board.count_flatten_replicate]
      simp [List.count_replicate, List.count_append]
    · rw [Board.reset_board_closed, List.count_append, List.count_append,
        Board.count_flatten_replicate]
      simp [List.count_replicate, List.count_append]
    · intro row col hr1 hr2 hc1 hc2
      obtain ⟨r0, rfl⟩ : ∃ r0, row = r0 + 1 := ⟨row - 1, by omega⟩
      obtain ⟨c0, rfl⟩ : ∃ c0, col = c0 + 1 := ⟨col - 1, by omega⟩
      have hcp : coord_to_point (r0 + 1) (c0 + 1) size
          = (size + 2) + (c0 + r0 * (size + 1)) := by
        show (r0 + 1) * (size + 1) + (c0 + 1) = _
        ring
      rw [Board.reset_board_closed, List.append_assoc, hcp,
        List.getD_append_right _ _ _ _ (by simp),
        show (size + 2) + (c0 + r0 * (size + 1))
            - (List.replicate (size + 2) BORDER : List Marker).length
          = c0 + r0 * (size + 1) by simp]
      have hjlt : c0 + r0 * (size + 1) < size * (size + 1) := by
        have hm := Nat.mul_le_mul (show r0 + 1 ≤ size by omega)
          (Nat.le_refl (size + 1))
        have hx : (r0 + 1) * (size + 1) = r0 * (size + 1) + (size + 1) := by ring
        omega
      rw [List.getD_append _ _ _ _ (by rw [Board.flatten_replicate_length, hblk]; omega),
        Board.flatten_replicate_getD size size _ hjlt]
      rw [Nat.add_mul_mod_self_right, Nat.mod_eq_of_lt (by omega)]
      rw [if_pos (by omega)]
    · intro i hi hnp
      rw [Board.reset_board_closed, List.append_assoc]
      by_cases hP : i < size + 2
      · rw [List.getD_append _ _ _ _ (by simpa using hP), Board.replicate_getD,
          if_pos hP]
      · rw [List.getD_append_right _ _ _ _ (by simp; omega)]
        have hj : i - (List.replicate (size + 2) BORDER : List Marker).length
            = i - (size + 2) := by simp
        rw [hj]
        by_cases hM : i - (size + 2) < size * (size + 1)
        · rw [List.getD_append _ _ _ _ (by rw [Board.flatten_replicate_length, hblk]; omega),
            Board.flatten_replicate_getD size size _ hM]
          rw [if_neg]
          intro hmod
          apply hnp
          have hdiv : (i - (size + 2)) / (size + 1) < size := by
            rw [Nat.div_lt_iff_lt_mul (by omega : 0 < size + 1)]
            exact hM
          have hdm := Nat.div_add_mod (i - (size + 2)) (size + 1)
          obtain ⟨dq, hdq⟩ : ∃ dq, (i - (size + 2)) / (size + 1) = dq := ⟨_, rfl⟩
          obtain ⟨dr, hdr⟩ : ∃ dr, (i - (size + 2)) % (size + 1) = dr := ⟨_, rfl⟩
          rw [hdq, hdr] at hdm
          rw [hdq] at hdiv
          rw [hdr] at hmod
          refine ⟨dq + 1, dr + 1,
            Nat.succ_le_succ (Nat.zero_le _), hdiv,
            Nat.succ_le_succ (Nat.zero_le _), hmod, ?_⟩
          show i = (dq + 1) * (size + 1) + (dr + 1)
          have hx : (dq + 1) * (size + 1) = (size + 1) * dq + (size + 1) := by ring
          omega
        · rw [List.getD_append_right _ _ _ _ (by rw [Board.flatten_replicate_length, hblk]; omega),
            Board.replicate_getD, ite_self]
  · intro size hbad
    rw [Board.create, if_neg hbad]

/-- Witness for C6 at concrete inputs: a fresh 3×3 board has nine `EMPTY`
cells and the playable corner `pt(1,1)` is `EMPTY`, while size 1 is
rejected. -/
theorem fresh_board_characterization_witness :
    (Board.reset 3).board.count EMPTY = 9
    ∧ (Board.reset 3).board.getD (coord_to_point 1 1 3) BORDER = EMPTY
    ∧ Board.create 1 = none :=
  ⟨by simpa using (fresh_board_characterization.1 3 (by decide) (by decide)).2.2.1,
   (fresh_board_characterization.1 3 (by decide) (by decide)).2.2.2.2.2.1 1 1
     (by decide) (by decide) (by decide) (by decide),
   fresh_board_characterization.2 1 (by decide)⟩

end Gomoku
